/-
Verification of the Member QA Service (src/main.py): a shallow embedding of
the retrieval-and-answer pipeline (tokenization, entity extraction, BM25
top-k selection, context expansion, candidate filtering, per-type answer
synthesis), the corpus-loading path and the cached-index lifecycle, together
with theorems settling the specification claims.

Conventions of the embedding:
* Python strings are Lean String / List Char; all character classes used by
  the source regexes (\w, \d, \s, [A-Z], [a-z]) are ASCII, matching Python
  semantics on the ASCII inputs the service handles.
* Python regex scanning (re.search / re.findall, leftmost match, greedy
  quantifiers with the limited backtracking these particular patterns need)
  is implemented directly as positional scans; recursion uses explicit fuel
  bounded by the string length so every definition is structural and
  evaluates by kernel reduction.
* Machine floats produced by the external BM25 library are modelled as an
  abstract score vector (List Rat) handed to the selection step; the
  selection, which is repository code (np.argsort reversed, take 20), is
  embedded exactly.  np.argsort is modelled as a stable ascending argsort,
  which is exact for the small arrays of the counterexamples.
* A Python exception escaping a function is modelled as Except.error ().
-/
import Mathlib

namespace MemberQA

/-- Python \w word character (ASCII): alphanumeric or underscore. -/
def isWordChar (c : Char) : Bool := c.isAlphanum || c == '_'

/-- The pattern w occurs in s starting at position i. -/
def subAt (w s : List Char) (i : Nat) : Bool := w.isPrefixOf (s.drop i)

/-- Python substring containment (the in operator on strings). -/
def containsSub (w s : List Char) : Bool :=
  (List.range (s.length + 1)).any (subAt w s)

/-- String-level substring containment. -/
def strContains (w s : String) : Bool := containsSub w.data s.data

/-- Python str.lower restricted to ASCII (the case folding the source relies
on): map Char.toLower over the characters. Defined over the character list
so that it reduces in the kernel. -/
def strLower (s : String) : String := String.mk (s.data.map Char.toLower)

/-- Regex word boundary holding just before position i (the pattern to the
right starts with a word character). -/
def bndryBefore (s : List Char) (i : Nat) : Bool :=
  i == 0 || !isWordChar (s.getD (i - 1) ' ')

/-- Regex word boundary holding just after a match ending at position i (the
matched text ends with a word character). -/
def bndryAfter (s : List Char) (i : Nat) : Bool := !isWordChar (s.getD i ' ')

/-- Whole-word occurrence of w at position i of s, i.e. the regex \b w \b
matching at i, for a pattern w that starts and ends with word characters. -/
def wordAt (w s : List Char) (i : Nat) : Bool :=
  subAt w s i && bndryBefore s i && bndryAfter s (i + w.length)

/-- Whole-word occurrence of w anywhere in s: re.search of \b w \b. -/
def containsWordL (w s : List Char) : Bool :=
  (List.range (s.length + 1)).any (wordAt w s)

/-- String-level whole-word search. -/
def hasWord (w s : String) : Bool := containsWordL w.data s.data

/-- Splits a character list into the maximal runs of word characters, in
order: the semantics of re.findall of \w+. The accumulator holds the
currently open run, reversed. -/
def wordRunsAux : List Char → List Char → List (List Char)
  | [], acc => if acc.isEmpty then [] else [acc.reverse]
  | c :: cs, acc =>
    if isWordChar c then wordRunsAux cs (c :: acc)
    else if acc.isEmpty then wordRunsAux cs [] else acc.reverse :: wordRunsAux cs []

/-- Source tokenize: lowercase the text and return the maximal word-character
runs (re.findall of \w+ on text.lower()). -/
def tokenize (s : String) : List String :=
  (wordRunsAux (strLower s).data []).map (fun cs => String.mk cs)

/-- Source QUESTION_WORDS set: common question/stop words discarded by the
person-name extractor. -/
def QUESTION_WORDS : List String :=
  ["what", "when", "why", "where", "how", "who", "which", "can",
   "please", "looking", "will", "should", "is", "are", "need",
   "thank", "book", "check", "send", "find", "get", "arrange",
   "could", "would", "do", "does"]

/-- Length of the leading run of ASCII lowercase letters. -/
def lowerRunLen (s : List Char) : Nat := (s.takeWhile Char.isLower).length

/-- Length of a match of [A-Z][a-z]+ at the head of s (0 when there is no
match): one uppercase letter followed by the maximal nonempty lowercase run. -/
def nameLen (s : List Char) : Nat :=
  match s with
  | [] => 0
  | c :: cs => if c.isUpper then (if lowerRunLen cs == 0 then 0 else 1 + lowerRunLen cs) else 0

/-- Length matched by the greedy (?:\s[A-Z][a-z]+)* at the head of s: as many
groups of one whitespace character followed by a capitalized word as fit.
Fuel-structural; each iteration consumes at least two characters. -/
def groupsLenF : Nat → List Char → Nat
  | 0, _ => 0
  | _ + 1, [] => 0
  | fuel + 1, c :: cs =>
    if c.isWhitespace then
      (let n := nameLen cs
       if n == 0 then 0 else 1 + n + groupsLenF fuel (cs.drop n))
    else 0

/-- Greedy length of (?:\s[A-Z][a-z]+)* at the head of s. -/
def groupsLen (s : List Char) : Nat := groupsLenF s.length s

/-- Length of a match of the multi-word-name regex
[A-Z][a-z]+(?:\s[A-Z][a-z]+)+ at the head of s (0 when no match): a
capitalized word followed by at least one space-separated capitalized word. -/
def fullNameLen (s : List Char) : Nat :=
  let n := nameLen s
  if n == 0 then 0
  else (let g := groupsLen (s.drop n); if g == 0 then 0 else n + g)

/-- Findall of the multi-word-name regex: scan left to right, at each position
take the match if any (consuming it), otherwise advance one character. -/
def findallFullF : Nat → List Char → List (List Char)
  | 0, _ => []
  | _ + 1, [] => []
  | fuel + 1, c :: cs =>
    let n := fullNameLen (c :: cs)
    if n == 0 then findallFullF fuel cs
    else (c :: cs).take n :: findallFullF fuel ((c :: cs).drop n)

/-- Length of a match of \b[A-Z][a-z]+\b at the head of s, given whether the
preceding character (if any) is a word character: the leading boundary needs
a non-word predecessor, and the trailing boundary forces the character after
the maximal lowercase run to be a non-word character. -/
def singleNameLen (prevW : Bool) (s : List Char) : Nat :=
  if prevW then 0
  else
    let n := nameLen s
    if n == 0 then 0 else if isWordChar (s.getD n ' ') then 0 else n

/-- Findall of \b[A-Z][a-z]+\b, tracking whether the previous character is a
word character for the left boundary. -/
def findallSingleF : Nat → Bool → List Char → List (List Char)
  | 0, _, _ => []
  | _ + 1, _, [] => []
  | fuel + 1, prevW, c :: cs =>
    let n := singleNameLen prevW (c :: cs)
    if n == 0 then findallSingleF fuel (isWordChar c) cs
    else (c :: cs).take n :: findallSingleF fuel true ((c :: cs).drop n)

/-- Source extract_person_names: multi-word capitalized names first (minus
question words); if none survive, fall back to single capitalized words
(minus question words). -/
def extract_person_names (q : String) : List String :=
  let fulls := (findallFullF q.data.length q.data).map String.mk
  let fulls := fulls.filter (fun n => !(QUESTION_WORDS.contains (strLower n)))
  if !fulls.isEmpty then fulls
  else
    ((findallSingleF q.data.length false q.data).map String.mk).filter
      (fun w => !(QUESTION_WORDS.contains (strLower w)))

/-- Source location_keywords gazetteer. -/
def LOCATION_KEYWORDS : List String :=
  ["london", "paris", "tokyo", "new york", "dubai", "singapore",
   "bangkok", "aspen", "maldives", "bali", "cannes", "monaco",
   "tuscany", "santorini", "riviera", "milan", "switzerland",
   "kyoto", "pebble beach"]

/-- Source extract_locations: every gazetteer entry occurring (lowercased,
substring) in the lowercased query, in gazetteer order. -/
def extract_locations (q : String) : List String :=
  LOCATION_KEYWORDS.filter (fun loc => strContains (strLower loc) (strLower q))

/-- Question types returned by the classifier. -/
inductive QType
  | WHO | WHEN | WHERE | HOW_MANY | WHAT_ARE | WHICH | WHY | GENERIC
deriving DecidableEq

/-- Source extract_question_type: whole-word tests on the lowercased query in
strict priority order, first match wins, GENERIC otherwise. -/
def extract_question_type (q : String) : QType :=
  let ql := strLower q
  if hasWord "who" ql then .WHO
  else if hasWord "when" ql then .WHEN
  else if hasWord "where" ql then .WHERE
  else if hasWord "how many" ql then .HOW_MANY
  else if hasWord "what are" ql then .WHAT_ARE
  else if hasWord "which" ql then .WHICH
  else if hasWord "why" ql then .WHY
  else .GENERIC

/-- Search for the leftmost match of \b(\d+)\b: a digit run whose left
neighbour is a non-word character (tracked through prevW) and whose right
neighbour is a non-word character or the end. When the maximal run ending at
a word character fails the right boundary, scanning resumes after the run
(every inner position has a digit predecessor, so no match can start there). -/
def digitRunSearchF : Nat → Bool → List Char → Option (List Char)
  | 0, _, _ => none
  | _ + 1, _, [] => none
  | fuel + 1, prevW, c :: cs =>
    if c.isDigit && !prevW then
      (let run := c :: cs.takeWhile Char.isDigit
       let rest := cs.dropWhile Char.isDigit
       if !isWordChar (rest.getD 0 ' ') then some run
       else digitRunSearchF fuel true rest)
    else digitRunSearchF fuel (isWordChar c) cs

/-- Source word_to_num table of extract_number_strict, in insertion order. -/
def NUM_WORDS_STRICT : List (String × String) :=
  [("one", "1"), ("two", "2"), ("three", "3"), ("four", "4"), ("five", "5"),
   ("six", "6"), ("seven", "7"), ("eight", "8"), ("nine", "9"), ("ten", "10")]

/-- Source extract_number_strict: the first standalone digit run if any,
otherwise the value of the first word of the fixed list (scanned in list
order) occurring as a whole word in the lowercased text. -/
def extract_number_strict (text : String) : Option String :=
  match digitRunSearchF text.data.length false text.data with
  | some run => some (String.mk run)
  | none =>
    (NUM_WORDS_STRICT.find? (fun p => hasWord p.1 (strLower text))).map (fun p => p.2)

/-- Ascending comparison on document indices keyed by score, ties broken by
lower index: the order realized by a stable ascending argsort (np.argsort)
of the score vector. Out-of-range indices read score 0 (never reached on
indices drawn from range). -/
def idxLe (scores : List Rat) (i j : Nat) : Prop :=
  scores.getD i 0 < scores.getD j 0 ∨ (scores.getD i 0 = scores.getD j 0 ∧ i ≤ j)

instance idxLeDec (scores : List Rat) : DecidableRel (idxLe scores) :=
  fun i j =>
    decidable_of_iff
      (scores.getD i 0 < scores.getD j 0 ∨ (scores.getD i 0 = scores.getD j 0 ∧ i ≤ j))
      Iff.rfl

/-- Stable ascending argsort of the score vector: np.argsort(scores). -/
def argsortAsc (scores : List Rat) : List Nat :=
  List.insertionSort (idxLe scores) (List.range scores.length)

/-- Source selection step: np.argsort(scores)[::-1][:20], the top 20 indices
of the reversed ascending argsort. -/
def topKIndices (scores : List Rat) : List Nat :=
  ((argsortAsc scores).reverse).take 20

/-- A corpus message: user_name, message text and a (parsed) timestamp,
the timestamp abstracted to a natural number since only its order is used. -/
structure Msg where
  user_name : String
  message : String
  timestamp : Nat
deriving DecidableEq

/-- Default message used to totalize in-bounds list indexing. -/
def dfltMsg : Msg := ⟨"", "", 0⟩

/-- Source get_context: list(range(max(0, idx - w), min(n, idx + w + 1))),
with n the corpus length. Natural subtraction realizes the clamp at 0. -/
def get_context (n idx w : Nat) : List Nat :=
  List.range' (idx - w) (min n (idx + w + 1) - (idx - w))

/-- Appends the members of js not already present in acc, in order: the
seen-set deduplication of the candidate-expansion loop. -/
def insertNew (acc : List Nat) (js : List Nat) : List Nat :=
  js.foldl (fun a j => if j ∈ a then a else a ++ [j]) acc

/-- Worker of the candidate-expansion loop over the ranked top indices. -/
def expandGo (n w : Nat) : List Nat → List Nat → List Nat
  | acc, [] => acc
  | acc, idx :: rest => expandGo n w (insertNew acc (get_context n idx w)) rest

/-- Source candidate expansion (answer_question STEP 2): for each top index in
order emit its context window, deduplicating across windows while keeping
first-emission order. -/
def expandContext (n w : Nat) (top : List Nat) : List Nat := expandGo n w [] top

/-- A message matches a person list when some extracted name occurs
(lowercased, substring) in its user_name. -/
def personMatch (persons : List String) (m : Msg) : Bool :=
  persons.any (fun p => strContains (strLower p) (strLower m.user_name))

/-- A message matches a location list when some extracted location occurs
(lowercased, substring) in its message text. -/
def locMatch (locations : List String) (m : Msg) : Bool :=
  locations.any (fun loc => strContains (strLower loc) (strLower m.message))

/-- Adopt a restriction only when it is non-empty, else keep the original. -/
def adoptIfNonempty (orig new : List Nat) : List Nat :=
  if new.isEmpty then orig else new

/-- Person step of the candidate filter: when persons were extracted, restrict
to candidates whose speaker matches, adopting only a non-empty result. -/
def personStage (persons : List String) (msgs : List Msg) (cand : List Nat) : List Nat :=
  if persons.isEmpty then cand
  else adoptIfNonempty cand (cand.filter (fun i => personMatch persons (msgs.getD i dfltMsg)))

/-- Location step of the candidate filter: applied only when locations were
extracted and more than 5 candidates remain, adopting only a non-empty
result. -/
def locationStage (locations : List String) (msgs : List Msg) (cand : List Nat) : List Nat :=
  if !locations.isEmpty && decide (cand.length > 5) then
    adoptIfNonempty cand (cand.filter (fun i => locMatch locations (msgs.getD i dfltMsg)))
  else cand

/-- Source filter_candidates_by_entities: person step, then location step,
then the final fallback to the original candidates when everything was
filtered away. -/
def filter_candidates_by_entities (cand : List Nat) (q : String) (msgs : List Msg) : List Nat :=
  let f2 := locationStage (extract_locations q) msgs
    (personStage (extract_person_names q) msgs cand)
  if f2.isEmpty then cand else f2

/-- Source NOT_FOUND_ANSWER sentinel. -/
def NOT_FOUND_ANSWER : String := "This topic or answer does not exist in the conversation."

/-- Month names of the first WHEN date pattern, lowercased (the source
pattern is matched with re.IGNORECASE, modelled by matching the lowercase
names against the lowercased text). -/
def MONTHS : List String :=
  ["january", "february", "march", "april", "may", "june", "july",
   "august", "september", "october", "november", "december"]

/-- Length of the leading whitespace run. -/
def wsRunLen (s : List Char) : Nat := (s.takeWhile Char.isWhitespace).length

/-- Match of (month)\s+\d{1,2} at the head of s: a month name, at least one
whitespace character, then a digit (the greedy \s+ run must be followed
directly by a digit; one digit suffices for \d{1,2}). -/
def monthDayAt (s : List Char) : Bool :=
  MONTHS.any fun mon =>
    mon.data.isPrefixOf s &&
      (let r := s.drop mon.data.length
       let k := wsRunLen r
       decide (1 ≤ k) && (r.getD k ' ').isDigit)

/-- Anywhere-search of a head predicate: re.search without anchors. -/
def searchSub (p : List Char → Bool) (s : List Char) : Bool :=
  (List.range (s.length + 1)).any fun i => p (s.drop i)

/-- Standalone relative-day words of the second WHEN pattern. -/
def REL_WORDS : List String := ["today", "tomorrow", "tonight"]

/-- Prefix words of the next/this/last \s+\w+ alternatives. -/
def REL_PAIRS : List String := ["next", "this", "last"]

/-- Match of \b w \s+\w+ \b at position i: word boundary, the literal w, at
least one whitespace character, then a word character (the trailing boundary
after the greedy \w+ run always holds). -/
def wordThenWordAt (w s : List Char) (i : Nat) : Bool :=
  bndryBefore s i && w.isPrefixOf (s.drop i) &&
    (let r := s.drop (i + w.length)
     let k := wsRunLen r
     decide (1 ≤ k) && isWordChar (r.getD k ' '))

/-- Weekday names of the third WHEN pattern, lowercased. -/
def WEEKDAYS : List String :=
  ["monday", "tuesday", "wednesday", "thursday", "friday", "saturday", "sunday"]

/-- The k characters of s starting at i all exist and are digits. -/
def digitsAt (s : List Char) (i k : Nat) : Bool :=
  decide (i + k ≤ s.length) && ((s.drop i).take k).all Char.isDigit

/-- Match of \b\d{1,2}/\d{1,2}(?:/\d{2,4})?\b at position i, as an
existential over the quantifier choices the backtracking engine explores. -/
def numDateAt (s : List Char) (i : Nat) : Bool :=
  bndryBefore s i &&
    ([1, 2].any fun l1 =>
      digitsAt s i l1 && (s.getD (i + l1) ' ' == '/') &&
        ([1, 2].any fun l2 =>
          digitsAt s (i + l1 + 1) l2 &&
            (bndryAfter s (i + l1 + 1 + l2) ||
              ((s.getD (i + l1 + 1 + l2) ' ' == '/') &&
                ([2, 3, 4].any fun l3 =>
                  digitsAt s (i + l1 + 1 + l2 + 1) l3 &&
                    bndryAfter s (i + l1 + 1 + l2 + 1 + l3))))))

/-- Source date_patterns test: some of the four WHEN date/time regexes
matches the message (searched with re.IGNORECASE, modelled on the lowercased
text). -/
def hasDatePattern (m : String) : Bool :=
  let low := (strLower m).data
  searchSub monthDayAt low ||
    (REL_WORDS.any (fun w => containsWordL w.data low) ||
      REL_PAIRS.any (fun w => (List.range (low.length + 1)).any (wordThenWordAt w.data low))) ||
    WEEKDAYS.any (fun d => containsWordL d.data low) ||
    (List.range (low.length + 1)).any (numDateAt low)

/-- WHEN priority 1: first pre-filtered candidate whose message matches a
date pattern; returns the whole message. -/
def whenScanCand (msgs : List Msg) (cand : List Nat) : Option String :=
  cand.findSome? fun idx =>
    let m := (msgs.getD idx dfltMsg).message
    if hasDatePattern m then some m else none

/-- WHEN priority 2: first corpus message of an extracted person that matches
a date pattern; when locations were extracted the message must also mention
one, otherwise messages without the location are skipped. -/
def whenScanAll (msgs : List Msg) (persons locations : List String) : Option String :=
  msgs.findSome? fun msg =>
    if personMatch persons msg && hasDatePattern msg.message then
      (if !locations.isEmpty then
        (if locMatch locations msg then some msg.message else none)
      else some msg.message)
    else none

/-- Length of a match of the WHERE capture [A-Z][a-z]+(?:\s[A-Z][a-z]+)* at
the head of s (0 when no match). -/
def capNamePhrase (s : List Char) : Nat :=
  let n := nameLen s
  if n == 0 then 0 else n + groupsLen (s.drop n)

/-- Match of \b(?:to|in|at)\s+([A-Z][a-z]+(?:\s[A-Z][a-z]+)*) at position i,
returning the captured phrase. The three alternatives are mutually exclusive
at a fixed position. -/
def whereAt (s : List Char) (i : Nat) : Option (List Char) :=
  if bndryBefore s i then
    ["to", "in", "at"].findSome? fun p =>
      if p.data.isPrefixOf (s.drop i) then
        (let r := s.drop (i + 2)
         let k := wsRunLen r
         if 1 ≤ k then
           (let r2 := r.drop k
            let n := capNamePhrase r2
            if n == 0 then none else some (r2.take n))
         else none)
      else none
  else none

/-- Source WHERE regex search: leftmost match, returning group 1. -/
def whereSearch (s : List Char) : Option (List Char) :=
  (List.range (s.length + 1)).findSome? (whereAt s)

/-- Match of how many\s+(\w+) at position i of the lowercased query,
returning the captured noun. -/
def hownounAt (s : List Char) (i : Nat) : Option (List Char) :=
  if "how many".data.isPrefixOf (s.drop i) then
    (let r := s.drop (i + 8)
     let k := wsRunLen r
     if 1 ≤ k then
       (let w := (r.drop k).takeWhile isWordChar
        if w.isEmpty then none else some w)
     else none)
  else none

/-- Source HOW_MANY noun extraction: leftmost match of how many\s+(\w+). -/
def hownoun (qlow : List Char) : Option (List Char) :=
  (List.range (qlow.length + 1)).findSome? (hownounAt qlow)

/-- Source HOW_MANY scan: first candidate whose lowercased message contains
the noun and yields a strict number; candidates without a number are
skipped. -/
def howManyScan (msgs : List Msg) (cand : List Nat) (nounOpt : Option String) : Option String :=
  cand.findSome? fun idx =>
    let m := (msgs.getD idx dfltMsg).message
    match nounOpt with
    | none => none
    | some nn => if containsSub nn.data (strLower m).data then extract_number_strict m else none

/-- Python msg.split(sep, 1)[1]: the suffix after the first occurrence of
sep, none when sep does not occur (where [1] would raise IndexError). -/
def splitOnceAfter (sep s : List Char) : Option (List Char) :=
  (List.range (s.length + 1)).findSome? fun i =>
    if sep.isPrefixOf (s.drop i) then some (s.drop (i + sep.length)) else none

/-- Source WHICH / WHAT_ARE scan: first candidate whose lowercased message
contains the separator; the suffix is then taken from the original-case
message, which raises IndexError (modelled as Except.error) when the
separator occurs only in the lowercased text. -/
def sepScan (sep : String) (msgs : List Msg) : List Nat → Except Unit String
  | [] => .ok NOT_FOUND_ANSWER
  | idx :: rest =>
    let m := (msgs.getD idx dfltMsg).message
    if containsSub sep.data (strLower m).data then
      match splitOnceAfter sep.data m.data with
      | some after => .ok (String.mk after)
      | none => .error ()
    else sepScan sep msgs rest

/-- Source answer_question after the index has been built: the BM25 score
vector produced by the external library for the tokenized query is passed in
as scores (aligned with msgs in the running service). Except.error models a
Python exception escaping the function. -/
def answer_question (msgs : List Msg) (scores : List Rat) (q : String) : Except Unit String :=
  let q_tokens := tokenize q
  if q_tokens.isEmpty then .ok NOT_FOUND_ANSWER
  else
    let top := topKIndices scores
    let cand0 := expandContext msgs.length 2 top
    if cand0.isEmpty then .ok NOT_FOUND_ANSWER
    else
      let cand := filter_candidates_by_entities cand0 q msgs
      match extract_question_type q with
      | .WHO =>
        match top with
        | i :: _ => .ok (msgs.getD i dfltMsg).user_name
        | [] => .ok NOT_FOUND_ANSWER
      | .WHEN =>
        match whenScanCand msgs cand with
        | some m => .ok m
        | none =>
          let persons := extract_person_names q
          let locations := extract_locations q
          if !persons.isEmpty then
            .ok ((whenScanAll msgs persons locations).getD NOT_FOUND_ANSWER)
          else .ok NOT_FOUND_ANSWER
      | .WHERE =>
        .ok ((cand.findSome? fun idx =>
          (whereSearch (msgs.getD idx dfltMsg).message.data).map String.mk).getD
            NOT_FOUND_ANSWER)
      | .HOW_MANY =>
        .ok ((howManyScan msgs cand ((hownoun (strLower q).data).map String.mk)).getD
          NOT_FOUND_ANSWER)
      | .WHICH => sepScan " at " msgs cand
      | .WHAT_ARE => sepScan " are " msgs cand
      | .WHY =>
        .ok ((cand.findSome? fun idx =>
          (let m := (msgs.getD idx dfltMsg).message
           if strContains "because" (strLower m) then some m else none)).getD
            NOT_FOUND_ANSWER)
      | .GENERIC =>
        match cand with
        | i :: _ => .ok (msgs.getD i dfltMsg).message
        | [] =>
          match top with
          | i :: _ => .ok (msgs.getD i dfltMsg).message
          | [] => .ok NOT_FOUND_ANSWER

/-- A raw corpus entry as decoded from JSON: each required field may be
absent (reading an absent field raises KeyError in the source). -/
structure RawItem where
  user_name : Option String
  message : Option String
  timestamp : Option String
deriving DecidableEq

/-- Removes every occurrence of pat (assumed nonempty) from s, left to right
and non-overlapping: Python str.replace(pat, ""). -/
def removeAllF : Nat → List Char → List Char → List Char
  | 0, _, s => s
  | _ + 1, _, [] => []
  | fuel + 1, pat, c :: cs =>
    if pat.isPrefixOf (c :: cs) then removeAllF fuel pat ((c :: cs).drop pat.length)
    else c :: removeAllF fuel pat cs

/-- Source timestamp normalization of the local-file path:
ts.replace("+00:00", ""). -/
def stripOffsets (s : String) : String :=
  String.mk (removeAllF s.data.length "+00:00".data s.data)

/-- Source timestamp annotation: a missing timestamp field (KeyError) or an
unparseable one (ValueError) falls back to the current time. The actual
datetime.fromisoformat parser is external; it is passed in as parseTs, and
the local-file path first strips "+00:00" offsets. -/
def parsedTs (strip : Bool) (parseTs : String → Option Nat) (now : Nat) (it : RawItem) : Nat :=
  match it.timestamp with
  | none => now
  | some ts => (parseTs (if strip then stripOffsets ts else ts)).getD now

/-- Sort key comparison for items.sort(key=parsed timestamp); the stable
insertion sort with this non-strict comparison reproduces the stable Python
sort. -/
def tsLe (a b : RawItem × Nat) : Prop := a.2 ≤ b.2

instance tsLeDec : DecidableRel tsLe :=
  fun a b => decidable_of_iff (a.2 ≤ b.2) Iff.rfl

/-- Source message-list comprehension: reads user_name and message of every
item left to right; the first item missing either field raises KeyError
(Except.error), which is not caught. -/
def exceptMapMsgs : List (RawItem × Nat) → Except Unit (List Msg)
  | [] => .ok []
  | p :: rest =>
    match p.1.user_name, p.1.message with
    | some u, some m =>
      (match exceptMapMsgs rest with
       | .ok msgs => .ok (⟨u, m, p.2⟩ :: msgs)
       | .error e => .error e)
    | _, _ => .error ()

/-- Source fetch_messages item processing (shared by the local-file and API
paths): annotate every item with its parsed-or-defaulted timestamp, sort
stably by it, then build the message dicts, aborting on the first item
missing user_name or message. -/
def buildMessages (strip : Bool) (parseTs : String → Option Nat) (now : Nat)
    (items : List RawItem) : Except Unit (List Msg) :=
  let annotated := items.map (fun it => (it, parsedTs strip parseTs now it))
  exceptMapMsgs (List.insertionSort tsLe annotated)

/-- Source fetch_messages: the local snapshot is tried first when present and
non-empty, any exception there being caught and falling back to the API
path, whose exceptions propagate. -/
def fetch_messages (parseTs : String → Option Nat) (now : Nat)
    (localItems : Option (List RawItem)) (apiItems : List RawItem) :
    Except Unit (List Msg) :=
  let localRes : Option (List Msg) :=
    match localItems with
    | some items =>
      if items.isEmpty then none
      else
        (match buildMessages true parseTs now items with
         | .ok msgs => some msgs
         | .error _ => none)
    | none => none
  match localRes with
  | some msgs => .ok msgs
  | none => buildMessages false parseTs now apiItems

/-- Source build_index: tokenizes user_name and message together per message
and hands the token lists to BM25Okapi. The library constructor divides by
the corpus size and by the number of distinct terms, so it raises
ZeroDivisionError (Except.error) on an empty corpus and on a corpus whose
documents all tokenize to nothing; the opaque index object is modelled by
the token lists it was built from. -/
def build_index (msgs : List Msg) : Except Unit (List (List String)) :=
  let toks := msgs.map (fun m => tokenize (m.user_name ++ " " ++ m.message))
  if msgs.isEmpty then .error ()
  else if toks.all List.isEmpty then .error ()
  else .ok toks

/-- The module-level _CACHE triple. -/
structure Cache where
  messages : List Msg
  doc_tokens : List (List String)
  bm25 : Option (List (List String))
deriving DecidableEq

/-- The cache state with all three slots cleared, as left by the first three
statements of the refresh endpoint. -/
def clearedCache : Cache := ⟨[], [], none⟩

/-- Source ensure_index as a small-step trace: returns the list of cache
states observable after each of its three assignments, together with normal
or exceptional termination. No state is emitted when the index is already
built or when fetching or building fails. -/
def ensureTrace (c : Cache) (fetchRes : Except Unit (List Msg)) :
    List Cache × Except Unit Unit :=
  if c.bm25.isSome then ([], .ok ())
  else
    match fetchRes with
    | .error e => ([], .error e)
    | .ok msgs =>
      match build_index msgs with
      | .error e => ([], .error e)
      | .ok toks =>
        let s1 : Cache := { c with messages := msgs }
        let s2 : Cache := { s1 with doc_tokens := toks }
        let s3 : Cache := { s2 with bm25 := some toks }
        ([s1, s2, s3], .ok ())

/-- Source refresh endpoint as a small-step trace: the three clearing
assignments publish their intermediate states, then ensure_index rebuilds
from the cleared state. -/
def refreshTrace (c : Cache) (fetchRes : Except Unit (List Msg)) :
    List Cache × Except Unit Unit :=
  let cA : Cache := { c with messages := [] }
  let cB : Cache := { cA with doc_tokens := [] }
  let cC : Cache := { cB with bm25 := none }
  let (tr, res) := ensureTrace cC fetchRes
  (cA :: cB :: cC :: tr, res)

/-! Theorems settling the specification claims. -/

/-- C1: the claim that answer_question never lets an exception escape is
violated by the code: for the corpus message "Dinner At Eight" and the query
"which restaurant", the WHICH branch checks " at " against the lowercased
message but splits the original-case message, and the split has no second
part, so the IndexError of msg.split(" at ", 1)[1] escapes (Except.error in
the embedding). The score vector 0 is what BM25 yields for a query sharing
no term with the single document. -/
theorem which_branch_raises :
    answer_question [⟨"Bob", "Dinner At Eight", 0⟩] [(0 : Rat)] "which restaurant"
      = .error () := by
  rfl

/-- C2 counterexample: on the score vector [1, 1] (as produced for two
identical documents), the selection np.argsort(scores)[::-1][:20] returns
[1, 0]: the tie is broken by the higher document index, not the lower one
claimed. -/
theorem topK_tie_counterexample :
    topKIndices [(1 : Rat), 1] = [1, 0] ∧ topKIndices [(1 : Rat), 1] ≠ [0, 1] := by
  decide

/-- Builder helper: the message comprehension succeeds with one message per
item exactly when every item carries both required fields. -/
theorem exceptMapMsgs_ok_iff (l : List (RawItem × Nat)) :
    (∃ r, exceptMapMsgs l = .ok r ∧ r.length = l.length) ↔
      ∀ p ∈ l, p.1.user_name.isSome ∧ p.1.message.isSome := by
  induction l with
  | nil => simp [exceptMapMsgs]
  | cons p rest ih =>
    match hu : p.1.user_name, hm : p.1.message with
    | some u, some m =>
      simp only [exceptMapMsgs, hu, hm]
      constructor
      · rintro ⟨r, hr, hlen⟩
        cases herr : exceptMapMsgs rest with
        | error e => rw [herr] at hr; exact absurd hr (by simp)
        | ok msgs =>
          rw [herr] at hr
          obtain rfl : (⟨u, m, p.2⟩ : Msg) :: msgs = r := by
            simpa using hr
          intro x hx
          rcases List.mem_cons.mp hx with rfl | hx
          · exact ⟨by simp [hu], by simp [hm]⟩
          · exact (ih.mp ⟨msgs, herr, by simpa using hlen⟩) x hx
      · intro hall
        obtain ⟨msgs, hok, hlen⟩ := ih.mpr (fun x hx => hall x (List.mem_cons_of_mem _ hx))
        exact ⟨⟨u, m, p.2⟩ :: msgs, by rw [hok], by simp [hlen]⟩
    | some _, none =>
      simp only [exceptMapMsgs, hu, hm]
      constructor
      · rintro ⟨r, hr, -⟩; exact absurd hr (by simp)
      · intro hall; exact absurd (hall p (by simp)).2 (by simp [hm])
    | none, _ =>
      simp only [exceptMapMsgs, hu]
      constructor
      · rintro ⟨r, hr, -⟩; exact absurd hr (by simp)
      · intro hall; exact absurd (hall p (by simp)).1 (by simp [hu])

/-- C4 counterexample: an item whose message field is absent makes the build
raise KeyError (here on the API path, where nothing catches it) instead of
being excluded, and an item missing only its timestamp is kept with the
defaulted timestamp instead of being excluded. -/
theorem missing_field_aborts_build :
    fetch_messages (fun _ => none) 0 none [⟨some "Alice", none, some "t"⟩] = .error () ∧
    (Except.error () : Except Unit (List Msg)) ≠ .ok [] ∧
    buildMessages false (fun _ => none) 0 [⟨some "Alice", some "hi", none⟩]
      = .ok [⟨"Alice", "hi", 0⟩] :=
  ⟨rfl, by simp, rfl⟩

/-- C4 amended: the build over a list of corpus items completes (with no
entry dropped: one message per item) exactly when every item carries the
user_name and message fields; an item missing either field aborts the whole
build, while a missing or unparseable timestamp is only defaulted. -/
theorem buildMessages_ok_iff_required (strip : Bool) (parseTs : String → Option Nat)
    (now : Nat) (items : List RawItem) :
    (∃ msgs, buildMessages strip parseTs now items = .ok msgs ∧ msgs.length = items.length) ↔
      ∀ it ∈ items, it.user_name.isSome ∧ it.message.isSome := by
  have h := exceptMapMsgs_ok_iff
    (List.insertionSort tsLe (items.map fun it => (it, parsedTs strip parseTs now it)))
  have hlen : (List.insertionSort tsLe
      (items.map fun it => (it, parsedTs strip parseTs now it))).length = items.length := by
    simp [List.length_insertionSort]
  unfold buildMessages
  rw [hlen] at h
  rw [h]
  constructor
  · intro hall it hit
    exact hall (it, parsedTs strip parseTs now it)
      (by rw [List.mem_insertionSort]; exact List.mem_map.mpr ⟨it, hit, rfl⟩)
  · intro hall p hp
    rw [List.mem_insertionSort] at hp
    obtain ⟨it, hit, rfl⟩ := List.mem_map.mp hp
    exact hall it hit

/-- C4 amended, witness instance: a two-item corpus with all required fields
present builds completely. -/
theorem buildMessages_ok_iff_required_witness :
    ∃ msgs, buildMessages false (fun _ => none) 0
      [⟨some "Alice", some "hi", some "t1"⟩, ⟨some "Bob", some "yo", none⟩] = .ok msgs ∧
      msgs.length = 2 :=
  (buildMessages_ok_iff_required false (fun _ => none) 0
    [⟨some "Alice", some "hi", some "t1"⟩, ⟨some "Bob", some "yo", none⟩]).mpr (by decide)

/-- Concrete built cache used by the C5 counterexample. -/
def builtCacheEx : Cache :=
  ⟨[⟨"Alice", "hi", 0⟩], [["alice", "hi"]], some [["alice", "hi"]]⟩

/-- C5 counterexample: starting from a built cache, a refresh whose fetch
returns an empty corpus (so the index rebuild raises) terminates
exceptionally with the cache fully cleared: the previously built triple is
not retained, and the cleared (unbuilt) state was observable. -/
theorem refresh_failure_loses_state :
    (refreshTrace builtCacheEx (.ok [])).2 = .error () ∧
    (refreshTrace builtCacheEx (.ok [])).1.getLast? = some clearedCache ∧
    clearedCache ≠ builtCacheEx ∧ clearedCache.bm25 = none := by
  refine ⟨rfl, rfl, ?_, rfl⟩
  decide

/-- C5 amended: refresh always publishes the fully cleared state (losing the
old triple) before rebuilding; its final state is the cleared cache when the
fetch or the index build fails, and the freshly built triple otherwise, and
its outcome mirrors the rebuild outcome. -/
theorem refresh_clears_then_rebuilds (c : Cache) (fetchRes : Except Unit (List Msg)) :
    clearedCache ∈ (refreshTrace c fetchRes).1 ∧
    (refreshTrace c fetchRes).1.getLast? = some
      (match fetchRes with
       | .error _ => clearedCache
       | .ok msgs =>
         match build_index msgs with
         | .error _ => clearedCache
         | .ok toks => ⟨msgs, toks, some toks⟩) ∧
    (refreshTrace c fetchRes).2 =
      (match fetchRes with
       | .error e => .error e
       | .ok msgs =>
         match build_index msgs with
         | .error e => .error e
         | .ok _ => .ok ()) := by
  cases fetchRes with
  | error e =>
    refine ⟨?_, rfl, rfl⟩
    simp [refreshTrace, ensureTrace, clearedCache]
  | ok msgs =>
    cases h : build_index msgs with
    | error e =>
      refine ⟨?_, ?_, ?_⟩ <;> simp [refreshTrace, ensureTrace, clearedCache, h]
    | ok toks =>
      refine ⟨?_, ?_, ?_⟩ <;> simp [refreshTrace, ensureTrace, clearedCache, h]

/-- C6: the question-type classifier tests the lowercased query for
whole-word matches in the strict priority order who, when, where, how many,
what are, which, why, returns the first match, returns GENERIC when none
match, and in particular classifies a query containing both who and when as
WHO. -/
theorem question_type_priority :
    (∀ q : String,
      (extract_question_type q = .WHO ↔ hasWord "who" (strLower q) = true) ∧
      (extract_question_type q = .WHEN ↔
        (hasWord "who" (strLower q) = false ∧ hasWord "when" (strLower q) = true)) ∧
      (extract_question_type q = .WHERE ↔
        (hasWord "who" (strLower q) = false ∧ hasWord "when" (strLower q) = false ∧
         hasWord "where" (strLower q) = true)) ∧
      (extract_question_type q = .HOW_MANY ↔
        (hasWord "who" (strLower q) = false ∧ hasWord "when" (strLower q) = false ∧
         hasWord "where" (strLower q) = false ∧ hasWord "how many" (strLower q) = true)) ∧
      (extract_question_type q = .WHAT_ARE ↔
        (hasWord "who" (strLower q) = false ∧ hasWord "when" (strLower q) = false ∧
         hasWord "where" (strLower q) = false ∧ hasWord "how many" (strLower q) = false ∧
         hasWord "what are" (strLower q) = true)) ∧
      (extract_question_type q = .WHICH ↔
        (hasWord "who" (strLower q) = false ∧ hasWord "when" (strLower q) = false ∧
         hasWord "where" (strLower q) = false ∧ hasWord "how many" (strLower q) = false ∧
         hasWord "what are" (strLower q) = false ∧ hasWord "which" (strLower q) = true)) ∧
      (extract_question_type q = .WHY ↔
        (hasWord "who" (strLower q) = false ∧ hasWord "when" (strLower q) = false ∧
         hasWord "where" (strLower q) = false ∧ hasWord "how many" (strLower q) = false ∧
         hasWord "what are" (strLower q) = false ∧ hasWord "which" (strLower q) = false ∧
         hasWord "why" (strLower q) = true)) ∧
      (extract_question_type q = .GENERIC ↔
        (hasWord "who" (strLower q) = false ∧ hasWord "when" (strLower q) = false ∧
         hasWord "where" (strLower q) = false ∧ hasWord "how many" (strLower q) = false ∧
         hasWord "what are" (strLower q) = false ∧ hasWord "which" (strLower q) = false ∧
         hasWord "why" (strLower q) = false))) ∧
    extract_question_type "Who is speaking and when did they call?" = .WHO := by
  constructor
  · intro q
    simp only [extract_question_type]
    split_ifs with h1 h2 h3 h4 h5 h6 h7 <;> simp_all
  · decide

/-- C7: the strict single-number extractor returns the first standalone digit
run when one exists; when none exists it scans the fixed one..ten word list
in list order and returns the value of the first listed word occurring in
the text (so list order beats text position, as in the "ten two" instance,
where two wins although ten occurs first); it returns nothing when neither
is present. -/
theorem extract_number_strict_policy :
    (∀ t run, digitRunSearchF t.data.length false t.data = some run →
      extract_number_strict t = some (String.mk run)) ∧
    (∀ t, digitRunSearchF t.data.length false t.data = none →
      extract_number_strict t =
        (NUM_WORDS_STRICT.find? (fun p => hasWord p.1 (strLower t))).map (fun p => p.2)) ∧
    extract_number_strict "a 42 7" = some "42" ∧
    extract_number_strict "ten two" = some "2" ∧
    extract_number_strict "hello world" = none := by
  refine ⟨?_, ?_, by decide, by decide, by decide⟩
  · intro t run h
    unfold extract_number_strict
    rw [h]
  · intro t h
    unfold extract_number_strict
    rw [h]

/-- C7 witness: the digit-priority clause applied at a concrete text whose
only standalone digit run is the trailing 7 (the 12 in 12b is not
standalone). -/
theorem extract_number_strict_policy_witness :
    digitRunSearchF "room 12b and 7".data.length false "room 12b and 7".data = some ['7'] ∧
    extract_number_strict "room 12b and 7" = some (String.mk ['7']) :=
  ⟨by decide, extract_number_strict_policy.1 "room 12b and 7" ['7'] (by decide)⟩

/-- Totality of the argsort comparison. -/
theorem idxLe_total (s : List Rat) : ∀ i j, idxLe s i j ∨ idxLe s j i := by
  intro i j
  rcases lt_trichotomy (s.getD i 0) (s.getD j 0) with h | h | h
  · exact Or.inl (Or.inl h)
  · rcases Nat.le_total i j with hij | hij
    · exact Or.inl (Or.inr ⟨h, hij⟩)
    · exact Or.inr (Or.inr ⟨h.symm, hij⟩)
  · exact Or.inr (Or.inl h)

/-- Transitivity of the argsort comparison. -/
theorem idxLe_trans (s : List Rat) :
    ∀ i j k, idxLe s i j → idxLe s j k → idxLe s i k := by
  intro i j k hij hjk
  rcases hij with h1 | ⟨e1, l1⟩
  · rcases hjk with h2 | ⟨e2, l2⟩
    · exact Or.inl (h1.trans h2)
    · exact Or.inl (e2 ▸ h1)
  · rcases hjk with h2 | ⟨e2, l2⟩
    · exact Or.inl (e1 ▸ h2)
    · exact Or.inr ⟨e1.trans e2, l1.trans l2⟩

/-- Strict descending order realized by the selection: earlier selected
indices have strictly greater score, or equal score and strictly greater
document index. -/
def descRel (scores : List Rat) (i j : Nat) : Prop :=
  scores.getD j 0 < scores.getD i 0 ∨
    (scores.getD i 0 = scores.getD j 0 ∧ j < i)

/-- C2 amended: the selection step takes the first 20 entries of the reversed
stable ascending argsort, a permutation of all document indices arranged in
descending score order with ties broken by the higher document index (the
later message first) - the reversal of np.argsort flips the stable
lower-index-first tie order. -/
theorem topK_descending_ties_higher_index (scores : List Rat) :
    topKIndices scores = ((argsortAsc scores).reverse).take 20 ∧
    List.Perm (argsortAsc scores) (List.range scores.length) ∧
    ((argsortAsc scores).reverse).Pairwise (descRel scores) ∧
    (topKIndices scores).Pairwise (descRel scores) ∧
    ∀ i ∈ topKIndices scores, i < scores.length := by
  have hperm : List.Perm (argsortAsc scores) (List.range scores.length) :=
    List.perm_insertionSort _ _
  have hnodup : (argsortAsc scores).Nodup :=
    hperm.nodup_iff.mpr (List.nodup_range _)
  haveI : IsTotal Nat (idxLe scores) := ⟨idxLe_total scores⟩
  haveI : IsTrans Nat (idxLe scores) := ⟨idxLe_trans scores⟩
  have hsorted : List.Sorted (idxLe scores) (argsortAsc scores) :=
    List.sorted_insertionSort _ _
  have hrev : ((argsortAsc scores).reverse).Pairwise (fun i j => idxLe scores j i) :=
    List.pairwise_reverse.mpr hsorted
  have hrevne : ((argsortAsc scores).reverse).Pairwise (fun i j => i ≠ j) :=
    List.Pairwise.imp (fun h => h) (List.nodup_reverse.mpr hnodup)
  have hdesc : ((argsortAsc scores).reverse).Pairwise (descRel scores) := by
    refine (hrev.and hrevne).imp ?_
    rintro i j ⟨hle, hne⟩
    rcases hle with hlt | ⟨heq, hji⟩
    · exact Or.inl hlt
    · exact Or.inr ⟨heq.symm, Nat.lt_of_le_of_ne hji (Ne.symm hne)⟩
  refine ⟨rfl, hperm, hdesc, List.Pairwise.sublist (List.take_sublist _ _) hdesc, ?_⟩
  intro i hi
  have : i ∈ argsortAsc scores :=
    List.mem_reverse.mp ((List.take_sublist _ _).mem hi)
  exact List.mem_range.mp (hperm.mem_iff.mp this)

/-- Candidate deduplication: membership in the accumulated list. -/
theorem mem_insertNew : ∀ (js acc : List Nat) (a : Nat),
    a ∈ insertNew acc js ↔ a ∈ acc ∨ a ∈ js := by
  intro js
  induction js with
  | nil => intro acc a; simp [insertNew]
  | cons j js ih =>
    intro acc a
    have h := ih (if j ∈ acc then acc else acc ++ [j]) a
    simp only [insertNew, List.foldl_cons] at h ⊢
    rw [h]
    by_cases hj : j ∈ acc
    · rw [if_pos hj]
      simp only [List.mem_cons]
      constructor
      · rintro (ha | ha)
        · exact Or.inl ha
        · exact Or.inr (Or.inr ha)
      · rintro (ha | rfl | ha)
        · exact Or.inl ha
        · exact Or.inl hj
        · exact Or.inr ha
    · rw [if_neg hj]
      simp only [List.mem_append, List.mem_cons, List.not_mem_nil, or_false]
      constructor
      · rintro ((ha | rfl) | ha)
        · exact Or.inl ha
        · exact Or.inr (Or.inl rfl)
        · exact Or.inr (Or.inr ha)
      · rintro (ha | rfl | ha)
        · exact Or.inl (Or.inl ha)
        · exact Or.inl (Or.inr rfl)
        · exact Or.inr ha

/-- Candidate deduplication preserves distinctness. -/
theorem nodup_insertNew : ∀ (js acc : List Nat), acc.Nodup → (insertNew acc js).Nodup := by
  intro js
  induction js with
  | nil => intro acc h; simpa [insertNew] using h
  | cons j js ih =>
    intro acc h
    simp only [insertNew, List.foldl_cons]
    by_cases hj : j ∈ acc
    · simpa [hj] using ih acc h
    · have : (acc ++ [j]).Nodup := by simp [List.nodup_append, h, hj]
      simpa [hj] using ih (acc ++ [j]) this

/-- Context windows stay inside the corpus. -/
theorem mem_get_context_lt (n idx w j : Nat) (h : j ∈ get_context n idx w) : j < n := by
  unfold get_context at h
  rw [List.mem_range'] at h
  obtain ⟨i, hi, rfl⟩ := h
  omega

/-- An in-bounds index belongs to its own context window. -/
theorem self_mem_get_context (n idx w : Nat) (h : idx < n) : idx ∈ get_context n idx w := by
  unfold get_context
  rw [List.mem_range']
  refine ⟨idx - (idx - w), ?_, ?_⟩ <;> omega

/-- Membership in the expansion worker. -/
theorem mem_expandGo (n w : Nat) : ∀ (top acc : List Nat) (a : Nat),
    a ∈ expandGo n w acc top ↔ a ∈ acc ∨ ∃ idx ∈ top, a ∈ get_context n idx w := by
  intro top
  induction top with
  | nil => intro acc a; simp [expandGo]
  | cons idx rest ih =>
    intro acc a
    simp only [expandGo]
    rw [ih, mem_insertNew]
    simp only [List.mem_cons]
    constructor
    · rintro ((h | h) | ⟨x, hx, hctx⟩)
      · exact Or.inl h
      · exact Or.inr ⟨idx, Or.inl rfl, h⟩
      · exact Or.inr ⟨x, Or.inr hx, hctx⟩
    · rintro (h | ⟨x, (rfl | hx), hctx⟩)
      · exact Or.inl (Or.inl h)
      · exact Or.inl (Or.inr hctx)
      · exact Or.inr ⟨x, hx, hctx⟩

/-- The expansion worker preserves distinctness. -/
theorem nodup_expandGo (n w : Nat) : ∀ (top acc : List Nat),
    acc.Nodup → (expandGo n w acc top).Nodup := by
  intro top
  induction top with
  | nil => intro acc h; simpa [expandGo] using h
  | cons idx rest ih =>
    intro acc h
    exact ih _ (nodup_insertNew _ _ h)

/-- C8: for every corpus length, window size and list of in-bounds top ids,
context expansion emits only in-bounds indices, contains every original top
id, and is duplicate-free (set-based dedup in first-emission order). -/
theorem context_expansion_sound (n w : Nat) (top : List Nat)
    (hb : ∀ idx ∈ top, idx < n) :
    (∀ j ∈ expandContext n w top, j < n) ∧
    (∀ idx ∈ top, idx ∈ expandContext n w top) ∧
    (expandContext n w top).Nodup := by
  refine ⟨?_, ?_, nodup_expandGo n w top [] List.nodup_nil⟩
  · intro j hj
    rcases (mem_expandGo n w top [] j).mp hj with h | ⟨idx, _, hctx⟩
    · simp at h
    · exact mem_get_context_lt n idx w j hctx
  · intro idx hidx
    exact (mem_expandGo n w top [] idx).mpr
      (Or.inr ⟨idx, hidx, self_mem_get_context n idx w (hb idx hidx)⟩)

/-- C8 witness: expansion over a five-message corpus with window 1 and top
ids 4 and 0. -/
theorem context_expansion_sound_witness :
    (∀ j ∈ expandContext 5 1 [4, 0], j < 5) ∧
    (∀ idx ∈ [4, 0], idx ∈ expandContext 5 1 [4, 0]) ∧
    (expandContext 5 1 [4, 0]).Nodup :=
  context_expansion_sound 5 1 [4, 0] (by decide)

/-- Adopting a restriction only when non-empty preserves non-emptiness of
the original. -/
theorem adoptIfNonempty_ne_nil (orig new : List Nat) (h : orig ≠ []) :
    adoptIfNonempty orig new ≠ [] := by
  unfold adoptIfNonempty
  split_ifs with hn
  · exact h
  · intro he
    rw [he] at hn
    simp at hn

/-- Adopting a sublist restriction yields a sublist. -/
theorem adoptIfNonempty_sublist (orig new : List Nat) (h : new.Sublist orig) :
    (adoptIfNonempty orig new).Sublist orig := by
  unfold adoptIfNonempty
  split_ifs
  · exact List.Sublist.refl _
  · exact h

/-- The person step returns a sublist of its input (order preserved). -/
theorem personStage_sublist (persons : List String) (msgs : List Msg) (cand : List Nat) :
    (personStage persons msgs cand).Sublist cand := by
  unfold personStage
  split_ifs
  · exact List.Sublist.refl _
  · exact adoptIfNonempty_sublist _ _ (List.filter_sublist _)

/-- The person step never empties a non-empty candidate set. -/
theorem personStage_ne_nil (persons : List String) (msgs : List Msg) (cand : List Nat)
    (h : cand ≠ []) : personStage persons msgs cand ≠ [] := by
  unfold personStage
  split_ifs
  · exact h
  · exact adoptIfNonempty_ne_nil _ _ h

/-- The location step returns a sublist of its input (order preserved). -/
theorem locationStage_sublist (locations : List String) (msgs : List Msg) (cand : List Nat) :
    (locationStage locations msgs cand).Sublist cand := by
  unfold locationStage
  split_ifs
  · exact adoptIfNonempty_sublist _ _ (List.filter_sublist _)
  · exact List.Sublist.refl _

/-- The location step never empties a non-empty candidate set. -/
theorem locationStage_ne_nil (locations : List String) (msgs : List Msg) (cand : List Nat)
    (h : cand ≠ []) : locationStage locations msgs cand ≠ [] := by
  unfold locationStage
  split_ifs
  · exact adoptIfNonempty_ne_nil _ _ h
  · exact h

/-- C3: on a non-empty candidate list (of in-bounds corpus indices, the
domain on which the total indexing of the embedding agrees with Python),
entity filtering returns a non-empty subsequence of the candidates, and when
no restriction applies (no persons extracted, and locations absent or at
most 5 candidates) it returns the candidate list unchanged. -/
theorem filter_candidates_nonempty (cand : List Nat) (q : String) (msgs : List Msg)
    (hne : cand ≠ []) (_hb : ∀ i ∈ cand, i < msgs.length) :
    filter_candidates_by_entities cand q msgs ≠ [] ∧
    (filter_candidates_by_entities cand q msgs).Sublist cand ∧
    ((extract_person_names q = [] ∧ (extract_locations q = [] ∨ cand.length ≤ 5)) →
      filter_candidates_by_entities cand q msgs = cand) := by
  have hstage : locationStage (extract_locations q) msgs
      (personStage (extract_person_names q) msgs cand) ≠ [] :=
    locationStage_ne_nil _ _ _ (personStage_ne_nil _ _ _ hne)
  have hsub : (locationStage (extract_locations q) msgs
      (personStage (extract_person_names q) msgs cand)).Sublist cand :=
    (locationStage_sublist _ _ _).trans (personStage_sublist _ _ _)
  refine ⟨?_, ?_, ?_⟩
  · simp only [filter_candidates_by_entities]
    split_ifs with h
    · exact hne
    · exact hstage
  · simp only [filter_candidates_by_entities]
    split_ifs with h
    · exact List.Sublist.refl _
    · exact hsub
  · rintro ⟨hp, hl⟩
    simp only [filter_candidates_by_entities]
    rw [hp]
    have hps : personStage [] msgs cand = cand := by simp [personStage]
    rw [hps]
    have hls : locationStage (extract_locations q) msgs cand = cand := by
      rcases hl with hl | hl
      · rw [hl]; simp [locationStage]
      · have hcond : ¬((!(extract_locations q).isEmpty && decide (cand.length > 5)) = true) := by
          simp only [Bool.and_eq_true, decide_eq_true_eq, not_and]
          intro _
          omega
        unfold locationStage
        rw [if_neg hcond]
    rw [hls]
    split_ifs with h
    · rfl
    · rfl

/-- C3 witness: filtering a concrete two-candidate set for a query naming
Alice keeps it non-empty. -/
theorem filter_candidates_nonempty_witness :
    filter_candidates_by_entities [0, 1] "Where is Alice going?"
      [⟨"Alice", "Meeting in Paris on Monday", 0⟩,
       ⟨"Bob", "because the venue changed", 1⟩] ≠ [] :=
  (filter_candidates_nonempty [0, 1] "Where is Alice going?"
    [⟨"Alice", "Meeting in Paris on Monday", 0⟩,
     ⟨"Bob", "because the venue changed", 1⟩] (by decide) (by decide)).1

/-- The hypothesis predicate of the no-capitalization claim: some character
is an ASCII uppercase letter immediately followed by an ASCII lowercase
letter. -/
def hasUpperLower : List Char → Bool
  | c :: d :: rest => (c.isUpper && d.isLower) || hasUpperLower (d :: rest)
  | _ => false

/-- A text without an uppercase-then-lowercase pair matches [A-Z][a-z]+
nowhere, in particular not at its head. -/
theorem nameLen_eq_zero (s : List Char) (h : hasUpperLower s = false) : nameLen s = 0 := by
  match s with
  | [] => rfl
  | [c] =>
    simp [nameLen, lowerRunLen]
  | c :: d :: ds =>
    simp only [hasUpperLower, Bool.or_eq_false_iff, Bool.and_eq_false_iff] at h
    simp only [nameLen]
    by_cases hc : c.isUpper
    · have hd : d.isLower = false := by
        rcases h.1 with h1 | h1
        · exact absurd h1 (by simp [hc])
        · exact h1
      have : lowerRunLen (d :: ds) = 0 := by
        simp [lowerRunLen, List.takeWhile, hd]
      simp [this, hc]
    · simp [hc]

/-- Dropping the head preserves the absence of uppercase-lowercase pairs. -/
theorem hasUpperLower_tail (c : Char) (cs : List Char)
    (h : hasUpperLower (c :: cs) = false) : hasUpperLower cs = false := by
  match cs with
  | [] => rfl
  | d :: ds =>
    simp only [hasUpperLower, Bool.or_eq_false_iff] at h
    exact h.2

/-- Without an uppercase-lowercase pair the multi-word-name findall is empty. -/
theorem findallFull_nil (fuel : Nat) (s : List Char) (h : hasUpperLower s = false) :
    findallFullF fuel s = [] := by
  induction fuel generalizing s with
  | zero => rfl
  | succ fuel ih =>
    match s with
    | [] => rfl
    | c :: cs =>
      have hn : fullNameLen (c :: cs) = 0 := by
        unfold fullNameLen
        rw [nameLen_eq_zero _ h]
        rfl
      simp only [findallFullF, hn]
      exact ih cs (hasUpperLower_tail c cs h)

/-- Without an uppercase-lowercase pair the single-name findall is empty,
whatever the boundary flag. -/
theorem findallSingle_nil (fuel : Nat) (prevW : Bool) (s : List Char)
    (h : hasUpperLower s = false) : findallSingleF fuel prevW s = [] := by
  induction fuel generalizing prevW s with
  | zero => rfl
  | succ fuel ih =>
    match s with
    | [] => rfl
    | c :: cs =>
      have hn : singleNameLen prevW (c :: cs) = 0 := by
        unfold singleNameLen
        rw [nameLen_eq_zero _ h]
        simp
      simp only [findallSingleF, hn]
      exact ih (isWordChar c) cs (hasUpperLower_tail c cs h)

/-- C10: a query containing no uppercase letter immediately followed by a
lowercase letter yields no person names, so the person step of the candidate
filter is the identity and filtering reduces to the location step with its
usual fallback. -/
theorem no_upper_lower_no_person_filter (q : String)
    (h : hasUpperLower q.data = false) :
    extract_person_names q = [] ∧
    ∀ cand msgs, filter_candidates_by_entities cand q msgs =
      (if (locationStage (extract_locations q) msgs cand).isEmpty then cand
       else locationStage (extract_locations q) msgs cand) := by
  have hp : extract_person_names q = [] := by
    unfold extract_person_names
    rw [findallFull_nil _ _ h, findallSingle_nil _ _ _ h]
    simp
  refine ⟨hp, fun cand msgs => ?_⟩
  unfold filter_candidates_by_entities
  rw [hp]
  have hps : personStage [] msgs cand = cand := by simp [personStage]
  rw [hps]

/-- C10 witness: the all-lowercase query "who is here" extracts no person
names. -/
theorem no_upper_lower_no_person_filter_witness :
    hasUpperLower "who is here".data = false ∧ extract_person_names "who is here" = [] :=
  ⟨by decide, (no_upper_lower_no_person_filter "who is here" (by decide)).1⟩

/-- On a non-empty score vector the selection starts with an in-bounds
document index. -/
theorem topK_head (scores : List Rat) (hs : scores ≠ []) :
    ∃ i rest, topKIndices scores = i :: rest ∧ i < scores.length := by
  have hperm : List.Perm (argsortAsc scores) (List.range scores.length) :=
    List.perm_insertionSort _ _
  have hlen : (argsortAsc scores).length = scores.length := by
    rw [hperm.length_eq, List.length_range]
  have hrevlen : ((argsortAsc scores).reverse).length = scores.length := by
    rw [List.length_reverse, hlen]
  cases hrev : (argsortAsc scores).reverse with
  | nil =>
    rw [hrev] at hrevlen
    exact absurd hrevlen.symm (by simpa using hs)
  | cons i rest =>
    refine ⟨i, rest.take 19, ?_, ?_⟩
    · unfold topKIndices
      rw [hrev]
      rfl
    · have : i ∈ argsortAsc scores := by
        rw [← List.mem_reverse, hrev]
        exact List.mem_cons_self _ _
      exact List.mem_range.mp (hperm.mem_iff.mp this)

/-- Expansion of a top list whose head is in bounds is non-empty. -/
theorem expandContext_ne_nil (n w : Nat) (top : List Nat) (idx : Nat)
    (hmem : idx ∈ top) (hidx : idx < n) : expandContext n w top ≠ [] := by
  intro he
  have : idx ∈ expandContext n w top :=
    (mem_expandGo n w top [] idx).mpr
      (Or.inr ⟨idx, hmem, self_mem_get_context n idx w hidx⟩)
  rw [he] at this
  simp at this

/-- C9: whenever the index is built over a non-empty corpus (score vector
aligned with the corpus) and the query has tokens and classifies as WHO, the
answer is exactly the speaker name of the single top-ranked document - the
sentinel branch is unreachable and the expanded, entity-filtered candidate
set does not influence the result. -/
theorem who_answers_top_speaker (msgs : List Msg) (scores : List Rat) (q : String)
    (hm : msgs ≠ []) (hlen : scores.length = msgs.length)
    (ht : tokenize q ≠ []) (hq : extract_question_type q = .WHO) :
    ∃ i rest, topKIndices scores = i :: rest ∧ i < msgs.length ∧
      answer_question msgs scores q = .ok ((msgs.getD i dfltMsg).user_name) := by
  have hs : scores ≠ [] := by
    intro h
    rw [h] at hlen
    exact hm (List.length_eq_zero.mp hlen.symm)
  obtain ⟨i, rest, htop, hi⟩ := topK_head scores hs
  have hi' : i < msgs.length := hlen ▸ hi
  refine ⟨i, rest, htop, hi', ?_⟩
  have h1 : (tokenize q).isEmpty = false := by
    cases h : tokenize q with
    | nil => exact absurd h ht
    | cons a l => rfl
  have hcand : (expandContext msgs.length 2 (topKIndices scores)).isEmpty = false := by
    have hne := expandContext_ne_nil msgs.length 2 (topKIndices scores) i
      (by rw [htop]; exact List.mem_cons_self _ _) hi'
    cases h : expandContext msgs.length 2 (topKIndices scores) with
    | nil => exact absurd h hne
    | cons a l => rfl
  rw [htop] at hcand
  simp only [answer_question, h1, Bool.false_eq_true, if_false, hcand, hq, htop]

/-- C9 witness: a one-message corpus with its BM25 score, a WHO query. -/
theorem who_answers_top_speaker_witness :
    answer_question [⟨"Alice", "hello", 0⟩] [(1 : Rat)] "who said hello" = .ok "Alice" := by
  obtain ⟨i, rest, htop, hi, hans⟩ :=
    who_answers_top_speaker [⟨"Alice", "hello", 0⟩] [(1 : Rat)] "who said hello"
      (by decide) (by decide) (by decide) (by decide)
  have hione : topKIndices [(1 : Rat)] = [0] := by decide
  rw [hione] at htop
  injection htop with h1 h2
  subst h1
  exact hans

end MemberQA
